import Mathlib

/-!
Shallow embedding of `SEEQST_LOQC.py`: a compiler from abstract quantum gates
(`Rx`, `Ry`, `CNOT`) on an `N`-qubit register to linear-optical element
placements, plus the `OpticalCircuit` container with stage bookkeeping and
algebraic composition.

Modelling conventions:
* Bitstrings (Python tuples over `{0,1}`) are `List Nat`;
  `itertools.product([0,1], repeat=n)` enumerates them in lexicographic
  order, reproduced here by `all_bitstrings`.
* Python's in-range indexing `bits[k_idx]` is `List.getD k_idx 0`, and the
  copy-then-assign update (`other = list(bits); other[k_idx] = 1`) is
  `List.set`.  Index arithmetic `k - 2` is `Nat` subtraction; for the
  operand ranges the spec declares valid (`k ≥ 2`, resp. `k ≥ 1` in
  `path_only` mode) this coincides with the Python indices.
* Python exceptions become `Except String` with the exact `ValueError`
  message strings as the error payloads.
* The mutable `OpticalCircuit` is embedded by explicit state passing:
  `add_gate` returns the successor state paired with an optional error; on
  error the returned state is the input state, because the Python exception
  is raised inside `optical_implementation`, before any field of the
  circuit object is mutated.
-/

namespace SEEQST

/-- Locations an `OpticalElement` can occupy in the source: the string
label `path_p` used by the polarization-qubit branch, a single path
bitstring, or a pair of path bitstrings. -/
inductive Location where
  | pathIdx : Nat → Location
  | single : List Nat → Location
  | pair : List Nat → List Nat → Location
deriving DecidableEq, Repr

/-- The `OpticalElement` dataclass: kind tag, symbolic parameters
(string key/value pairs), location, and stage (defaulting to 0). -/
structure OpticalElement where
  element : String
  params : List (String × String)
  location : Location
  stage : Nat := 0
deriving DecidableEq, Repr

/-- Python `all_bitstrings(n) = list(product([0, 1], repeat=n))`:
all length-`n` tuples over `{0,1}` in lexicographic order. -/
def all_bitstrings : Nat → List (List Nat)
  | 0 => [[]]
  | n + 1 =>
      (all_bitstrings n).map (fun b => 0 :: b)
        ++ (all_bitstrings n).map (fun b => 1 :: b)

/-- Python `paired_paths_for_qubit(N, k)`: over path length `N-1` and index
`k-2`, pair each bitstring with a 0 at the index with its copy whose bit at
the index is set to 1. -/
def paired_paths_for_qubit (N k : Nat) : List (List Nat × List Nat) :=
  let n_path := N - 1
  let k_idx := k - 2
  (all_bitstrings n_path).filterMap fun bits =>
    if bits.getD k_idx 0 = 0 then some (bits, bits.set k_idx 1) else none

/-- Python `paths_with_bit(N, k, value)`: the length-`N-1` bitstrings whose
bit at index `k-2` equals `value`. -/
def paths_with_bit (N k value : Nat) : List (List Nat) :=
  (all_bitstrings (N - 1)).filter fun bits => bits.getD (k - 2) 0 == value

/-- Python `optical_implementation(gate, N, i, j, encoding)`: compile a
single gate to its list of optical elements, or fail with the source's
`ValueError` message.  Operands `i`, `j` are the qubit indices (the claims
under verification always supply the operands a gate reads). -/
def optical_implementation (gate : String) (N : Nat) (i j : Nat)
    (encoding : String) : Except String (List OpticalElement) :=
  if encoding ≠ "pol_path" ∧ encoding ≠ "path_only" then
    .error "encoding must be 'pol_path' or 'path_only'"
  else if gate = "Rx" ∨ gate = "Ry" then
    let k := i
    if encoding = "pol_path" ∧ k = 1 then
      let n_paths := 2 ^ (N - 1)
      if gate = "Rx" then
        .ok ((List.range n_paths).flatMap fun p =>
          [{ element := "QWP", params := [("angle", "0")], location := .pathIdx p },
           { element := "HWP", params := [("angle", "pi/8")], location := .pathIdx p },
           { element := "QWP", params := [("angle", "0")], location := .pathIdx p }])
      else
        .ok ((List.range n_paths).flatMap fun p =>
          [{ element := "QWP", params := [("angle", "pi/4")], location := .pathIdx p },
           { element := "HWP", params := [("angle", "3pi/8")], location := .pathIdx p },
           { element := "QWP", params := [("angle", "pi/4")], location := .pathIdx p }])
    else if encoding = "path_only" then
      let pairs := paired_paths_for_qubit (N + 1) (k + 1)
      if gate = "Rx" then
        .ok (pairs.map fun pr =>
          { element := "BS", params := [], location := .pair pr.1 pr.2 })
      else
        .ok (pairs.flatMap fun pr =>
          [{ element := "PhasePlate", params := [("phi", "-pi/2")], location := .single pr.1 },
           { element := "BS", params := [("phi", "pi/2")], location := .pair pr.1 pr.2 },
           { element := "PhasePlate", params := [("phi", "pi/2")], location := .single pr.1 }])
    else
      let pairs := paired_paths_for_qubit N k
      if gate = "Rx" then
        .ok (pairs.map fun pr =>
          { element := "BS", params := [], location := .pair pr.1 pr.2 })
      else
        .ok (pairs.flatMap fun pr =>
          [{ element := "PhasePlate", params := [("phi", "-pi/2")], location := .single pr.1 },
           { element := "BS", params := [("phi", "pi/2")], location := .pair pr.1 pr.2 },
           { element := "PhasePlate", params := [("phi", "pi/2")], location := .single pr.1 }])
  else if gate = "CNOT" then
    let control := i
    let target := j
    if encoding = "pol_path" then
      if control = 1 ∧ target ≠ 1 then
        .ok ((paired_paths_for_qubit N target).map fun pr =>
          { element := "PBS", params := [], location := .pair pr.1 pr.2 })
      else if control ≠ 1 ∧ target ≠ 1 then
        let n_path := N - 1
        let c_idx := control - 2
        let t_idx := target - 2
        .ok ((all_bitstrings n_path).filterMap fun bits =>
          if bits.getD c_idx 0 = 1 ∧ bits.getD t_idx 0 = 0 then
            some { element := "PathSwap", params := [],
                   location := .pair bits (bits.set t_idx 1) }
          else none)
      else if control ≠ 1 ∧ target = 1 then
        .ok ((paths_with_bit N control 1).map fun p =>
          { element := "HWP", params := [("angle", "pi/2")], location := .single p })
      else
        .error "Unsupported CNOT configuration"
    else
      let n_path := N
      let c_idx := control - 1
      let t_idx := target - 1
      .ok ((all_bitstrings n_path).filterMap fun bits =>
        if bits.getD c_idx 0 = 1 ∧ bits.getD t_idx 0 = 0 then
          some { element := "PathSwap", params := [],
                 location := .pair bits (bits.set t_idx 1) }
        else none)
  else
    .error "Unknown gate"

/-- The `OpticalCircuit` class: fixed `(N, encoding)` configuration, an
ordered element sequence, and the next-stage counter. -/
structure OpticalCircuit where
  N : Nat
  encoding : String
  elements : List OpticalElement
  stage : Nat
deriving DecidableEq, Repr

/-- `OpticalCircuit.__init__(N, encoding)`: empty element list, stage 0. -/
def OpticalCircuit.init (N : Nat) (encoding : String) : OpticalCircuit :=
  { N := N, encoding := encoding, elements := [], stage := 0 }

/-- `OpticalCircuit.add_gate`: compile with the circuit's own
`(N, encoding)`, stamp every produced element with the current stage,
append, and advance the stage counter by one.  On a compile error the
state is returned unchanged together with the error message. -/
def OpticalCircuit.add_gate (c : OpticalCircuit) (gate : String) (i j : Nat) :
    OpticalCircuit × Option String :=
  match optical_implementation gate c.N i j c.encoding with
  | .error e => (c, some e)
  | .ok elems =>
      ({ c with
          elements := c.elements ++ elems.map fun e => { e with stage := c.stage },
          stage := c.stage + 1 },
       none)

/-- `OpticalCircuit.__mul__`: algebraic composition.  Requires equal `N`;
keeps `a`'s elements as they are, re-stamps `b`'s elements by adding
`a.stage`, and sums the stage counters. -/
def OpticalCircuit.mul (a b : OpticalCircuit) : Except String OpticalCircuit :=
  if a.N ≠ b.N then .error "Circuits must have same N"
  else
    .ok { N := a.N, encoding := a.encoding,
          elements := a.elements ++ b.elements.map fun e =>
            { element := e.element, params := e.params, location := e.location,
              stage := e.stage + a.stage },
          stage := a.stage + b.stage }

/-! ### Helper lemmas on list indexing and updates -/

theorem getD_set_self (l : List Nat) (i v d : Nat) (h : i < l.length) :
    (l.set i v).getD i d = v := by
  induction l generalizing i with
  | nil => simp at h
  | cons a t ih =>
    cases i with
    | zero => simp
    | succ m => simpa using ih m (by simpa using h)

theorem getD_set_ne (l : List Nat) (i j v d : Nat) (h : i ≠ j) :
    (l.set i v).getD j d = l.getD j d := by
  simp [List.getD_eq_getElem?_getD, List.getElem?_set_ne h]

theorem set_getD_self (l : List Nat) (i d : Nat) (h : i < l.length) :
    l.set i (l.getD i d) = l := by
  induction l generalizing i with
  | nil => simp at h
  | cons a t ih =>
    cases i with
    | zero => simp
    | succ m => simpa using ih m (by simpa using h)

theorem getD_mem (l : List Nat) (i d : Nat) (h : i < l.length) :
    l.getD i d ∈ l := by
  rw [List.getD_eq_getElem?_getD, List.getElem?_eq_getElem h]
  exact List.getElem_mem h

theorem length_filterMap_eq_countP {α β : Type} (f : α → Option β) (l : List α) :
    (l.filterMap f).length = l.countP fun a => (f a).isSome := by
  induction l with
  | nil => rfl
  | cons a t ih =>
    cases h : f a <;>
      simp [List.filterMap_cons, h, List.countP_cons, ih]

theorem countP_filterMap {α β : Type} (f : α → Option β) (q : β → Bool) (l : List α) :
    (l.filterMap f).countP q = l.countP fun a => ((f a).map q).getD false := by
  induction l with
  | nil => rfl
  | cons a t ih =>
    cases h : f a <;>
      simp [List.filterMap_cons, h, List.countP_cons, ih]

/-! ### Properties of `all_bitstrings` -/

theorem length_all_bitstrings (n : Nat) : (all_bitstrings n).length = 2 ^ n := by
  induction n with
  | zero => rfl
  | succ m ih => simp [all_bitstrings, ih, Nat.pow_succ]; omega

theorem mem_all_bitstrings (n : Nat) (bits : List Nat) :
    bits ∈ all_bitstrings n ↔ bits.length = n ∧ ∀ b ∈ bits, b = 0 ∨ b = 1 := by
  induction n generalizing bits with
  | zero =>
    simp only [all_bitstrings, List.mem_singleton]
    constructor
    · rintro rfl; simp
    · rintro ⟨h, -⟩; exact List.length_eq_zero.1 h
  | succ m ih =>
    simp only [all_bitstrings, List.mem_append, List.mem_map]
    constructor
    · rintro (⟨b, hb, rfl⟩ | ⟨b, hb, rfl⟩) <;>
        rcases (ih b).1 hb with ⟨hlen, hvals⟩
      · refine ⟨by simp [hlen], ?_⟩
        intro x hx
        rcases List.mem_cons.1 hx with rfl | hx
        · left; rfl
        · exact hvals x hx
      · refine ⟨by simp [hlen], ?_⟩
        intro x hx
        rcases List.mem_cons.1 hx with rfl | hx
        · right; rfl
        · exact hvals x hx
    · rintro ⟨hlen, hvals⟩
      cases bits with
      | nil => simp at hlen
      | cons c t =>
        have ht : t ∈ all_bitstrings m :=
          (ih t).2 ⟨by simpa using hlen, fun b hb => hvals b (List.mem_cons_of_mem c hb)⟩
        rcases hvals c (List.mem_cons_self c t) with rfl | rfl
        · exact Or.inl ⟨t, ht, rfl⟩
        · exact Or.inr ⟨t, ht, rfl⟩

theorem nodup_all_bitstrings (n : Nat) : (all_bitstrings n).Nodup := by
  induction n with
  | zero => simp [all_bitstrings]
  | succ m ih =>
    refine List.Nodup.append (ih.map ?_) (ih.map ?_) ?_
    · intro x y h; simpa using h
    · intro x y h; simpa using h
    · intro x hx hy
      rcases List.mem_map.1 hx with ⟨b, -, rfl⟩
      rcases List.mem_map.1 hy with ⟨c, -, hc⟩
      simp at hc

theorem countP_getD_all_bitstrings (n idx v : Nat) (hidx : idx < n) (hv : v = 0 ∨ v = 1) :
    (all_bitstrings n).countP (fun b => b.getD idx 0 == v) = 2 ^ (n - 1) := by
  induction n generalizing idx with
  | zero => omega
  | succ m ih =>
    simp only [all_bitstrings, List.countP_append, List.countP_map]
    cases idx with
    | zero =>
      have e0 : (all_bitstrings m).countP ((fun b => b.getD 0 0 == v) ∘ (fun b => 0 :: b))
          = (all_bitstrings m).countP (fun _ => 0 == v) :=
        List.countP_congr (fun x _ => by simp)
      have e1 : (all_bitstrings m).countP ((fun b => b.getD 0 0 == v) ∘ (fun b => 1 :: b))
          = (all_bitstrings m).countP (fun _ => 1 == v) :=
        List.countP_congr (fun x _ => by simp)
      rw [e0, e1]
      rcases hv with rfl | rfl <;>
        simp [List.countP_true, List.countP_false, length_all_bitstrings,
          Function.const, List.countP_eq_zero]
    | succ i =>
      have hi : i < m := by omega
      have e0 : (all_bitstrings m).countP ((fun b => b.getD (i + 1) 0 == v) ∘ (fun b => 0 :: b))
          = (all_bitstrings m).countP (fun b => b.getD i 0 == v) :=
        List.countP_congr (fun x _ => by simp)
      have e1 : (all_bitstrings m).countP ((fun b => b.getD (i + 1) 0 == v) ∘ (fun b => 1 :: b))
          = (all_bitstrings m).countP (fun b => b.getD i 0 == v) :=
        List.countP_congr (fun x _ => by simp)
      rw [e0, e1, ih i hi]
      have hm : m = (m - 1) + 1 := by omega
      rw [hm]
      simp [Nat.pow_succ]
      omega

/-! ### Properties of `paired_paths_for_qubit` -/

theorem paired_length (N k : Nat) (hN : 2 ≤ N) (hk2 : 2 ≤ k) (hkN : k ≤ N) :
    (paired_paths_for_qubit N k).length = 2 ^ (N - 2) := by
  have hidx : k - 2 < N - 1 := by omega
  unfold paired_paths_for_qubit
  rw [length_filterMap_eq_countP]
  have e : (all_bitstrings (N - 1)).countP
        (fun bits => (if bits.getD (k - 2) 0 = 0 then
          some (bits, bits.set (k - 2) 1) else none).isSome)
      = (all_bitstrings (N - 1)).countP (fun bits => bits.getD (k - 2) 0 == 0) :=
    List.countP_congr (fun x _ => by by_cases h : x.getD (k - 2) 0 = 0 <;> simp [h])
  have h12 : N - 1 - 1 = N - 2 := by omega
  rw [e, countP_getD_all_bitstrings (N - 1) (k - 2) 0 hidx (Or.inl rfl), h12]

theorem paired_mem (N k : Nat) (pr : List Nat × List Nat)
    (h : pr ∈ paired_paths_for_qubit N k) :
    pr.1 ∈ all_bitstrings (N - 1) ∧ pr.1.getD (k - 2) 0 = 0 ∧
      pr.2 = pr.1.set (k - 2) 1 := by
  unfold paired_paths_for_qubit at h
  rcases List.mem_filterMap.1 h with ⟨bits, hb, hf⟩
  by_cases h0 : bits.getD (k - 2) 0 = 0
  · rw [if_pos h0] at hf
    cases hf
    exact ⟨hb, h0, rfl⟩
  · rw [if_neg h0] at hf
    cases hf

theorem paired_mem_props (N k : Nat) (hN : 2 ≤ N) (hk2 : 2 ≤ k) (hkN : k ≤ N)
    (pr : List Nat × List Nat) (h : pr ∈ paired_paths_for_qubit N k) :
    pr.1.length = N - 1 ∧ pr.2.length = N - 1 ∧
      pr.1.getD (k - 2) 0 = 0 ∧ pr.2.getD (k - 2) 0 = 1 ∧
      pr.2 = pr.1.set (k - 2) 1 ∧
      ∀ m, m ≠ k - 2 → pr.1.getD m 0 = pr.2.getD m 0 := by
  obtain ⟨hmem, h0, hset⟩ := paired_mem N k pr h
  have hlen : pr.1.length = N - 1 := ((mem_all_bitstrings _ _).1 hmem).1
  have hidx : k - 2 < pr.1.length := by omega
  refine ⟨hlen, by rw [hset, List.length_set]; exact hlen, h0, ?_, hset, ?_⟩
  · rw [hset]; exact getD_set_self pr.1 (k - 2) 1 0 hidx
  · intro m hm
    rw [hset, getD_set_ne pr.1 (k - 2) m 1 0 (fun e => hm e.symm)]

/-- The set-to-zero copy of a bitstring stays inside `all_bitstrings`. -/
theorem set_mem_all_bitstrings (n idx v : Nat) (hv : v = 0 ∨ v = 1)
    (bits : List Nat) (hb : bits ∈ all_bitstrings n) :
    bits.set idx v ∈ all_bitstrings n := by
  rcases (mem_all_bitstrings n bits).1 hb with ⟨hlen, hvals⟩
  refine (mem_all_bitstrings n _).2 ⟨by rw [List.length_set]; exact hlen, ?_⟩
  intro b hbmem
  rcases List.mem_or_eq_of_mem_set hbmem with h | rfl
  · exact hvals b h
  · exact hv

theorem set_eq_self_of_getD (l : List Nat) (i v : Nat) (h : i < l.length)
    (hv : l.getD i 0 = v) : l.set i v = l := by
  rw [← hv]
  exact set_getD_self l i 0 h

theorem countP_eq_one_of_nodup_mem {α : Type} [DecidableEq α] (l : List α) (a : α)
    (hnd : l.Nodup) (ha : a ∈ l) : l.countP (fun b => decide (b = a)) = 1 := by
  induction l with
  | nil => cases ha
  | cons x t ih =>
    rw [List.countP_cons]
    rcases List.mem_cons.1 ha with rfl | hat
    · have hxt : a ∉ t := (List.nodup_cons.1 hnd).1
      have hz : t.countP (fun b => decide (b = a)) = 0 :=
        List.countP_eq_zero.2 (fun b hb => by
          simp only [decide_eq_true_eq]
          rintro rfl
          exact hxt hb)
      simp [hz]
    · have hnd' := (List.nodup_cons.1 hnd).2
      have hxa : x ≠ a := by
        rintro rfl
        exact (List.nodup_cons.1 hnd).1 hat
      simp [ih hnd' hat, hxa]

theorem count_all_bitstrings_eq_one (n : Nat) (bits : List Nat)
    (hb : bits ∈ all_bitstrings n) :
    (all_bitstrings n).countP (fun b => decide (b = bits)) = 1 :=
  countP_eq_one_of_nodup_mem _ _ (nodup_all_bitstrings n) hb

/-- Evaluates the composite predicate produced by `countP_filterMap` on the
pairing's `filterMap` body. -/
theorem pair_pred_eval (idx : Nat) (q : List Nat × List Nat → Bool) (b : List Nat) :
    ((if b.getD idx 0 = 0 then some (b, b.set idx 1) else none).map q).getD false
      = if b.getD idx 0 = 0 then q (b, b.set idx 1) else false := by
  by_cases h : b.getD idx 0 = 0
  · rw [if_pos h, if_pos h]
    rfl
  · rw [if_neg h, if_neg h]
    rfl

theorem paired_count_exactly_one (N k : Nat) (hN : 2 ≤ N) (hk2 : 2 ≤ k) (hkN : k ≤ N)
    (bits : List Nat) (hb : bits ∈ all_bitstrings (N - 1)) :
    (paired_paths_for_qubit N k).countP
      (fun pr => decide (pr.1 = bits ∨ pr.2 = bits)) = 1 := by
  have hidx : k - 2 < N - 1 := by omega
  rcases (mem_all_bitstrings _ _).1 hb with ⟨hlen, hvals⟩
  have hidx' : k - 2 < bits.length := by omega
  unfold paired_paths_for_qubit
  rw [countP_filterMap]
  by_cases h0 : bits.getD (k - 2) 0 = 0
  · have e : (all_bitstrings (N - 1)).countP
          (fun b => ((if b.getD (k - 2) 0 = 0 then
            some (b, b.set (k - 2) 1) else none).map
              (fun pr => decide (pr.1 = bits ∨ pr.2 = bits))).getD false)
        = (all_bitstrings (N - 1)).countP (fun b => decide (b = bits)) := by
      refine List.countP_congr (fun x hx => ?_)
      rcases (mem_all_bitstrings _ _).1 hx with ⟨hxlen, -⟩
      simp only [pair_pred_eval]
      by_cases hx0 : x.getD (k - 2) 0 = 0
      · rw [if_pos hx0]
        simp only [decide_eq_true_eq]
        constructor
        · rintro (rfl | hset)
          · rfl
          · exfalso
            have h1' : (x.set (k - 2) 1).getD (k - 2) 0 = 1 :=
              getD_set_self x (k - 2) 1 0 (by omega)
            rw [hset, h0] at h1'
            exact one_ne_zero h1'.symm
        · exact fun hxb => Or.inl hxb
      · rw [if_neg hx0]
        refine iff_of_false (by simp) ?_
        intro hxb
        have hxe : x = bits := of_decide_eq_true hxb
        rw [hxe] at hx0
        exact hx0 h0
    rw [e]
    exact count_all_bitstrings_eq_one _ bits hb
  · have h1 : bits.getD (k - 2) 0 = 1 := by
      rcases hvals _ (getD_mem bits (k - 2) 0 hidx') with h | h
      · exact absurd h h0
      · exact h
    have hb0mem : bits.set (k - 2) 0 ∈ all_bitstrings (N - 1) :=
      set_mem_all_bitstrings _ _ 0 (Or.inl rfl) bits hb
    have e : (all_bitstrings (N - 1)).countP
          (fun b => ((if b.getD (k - 2) 0 = 0 then
            some (b, b.set (k - 2) 1) else none).map
              (fun pr => decide (pr.1 = bits ∨ pr.2 = bits))).getD false)
        = (all_bitstrings (N - 1)).countP (fun b => decide (b = bits.set (k - 2) 0)) := by
      refine List.countP_congr (fun x hx => ?_)
      rcases (mem_all_bitstrings _ _).1 hx with ⟨hxlen, -⟩
      simp only [pair_pred_eval]
      by_cases hx0 : x.getD (k - 2) 0 = 0
      · rw [if_pos hx0]
        simp only [decide_eq_true_eq]
        constructor
        · rintro (rfl | hset)
          · exfalso; omega
          · have hx' : bits.set (k - 2) 0 = x := by
              rw [← hset, List.set_set]
              exact set_eq_self_of_getD x (k - 2) 0 (by omega) hx0
            exact hx'.symm
        · rintro rfl
          refine Or.inr ?_
          rw [List.set_set]
          exact set_eq_self_of_getD bits (k - 2) 1 hidx' h1
      · rw [if_neg hx0]
        refine iff_of_false (by simp) ?_
        intro hxb
        have hxe : x = bits.set (k - 2) 0 := of_decide_eq_true hxb
        rw [hxe] at hx0
        exact hx0 (getD_set_self bits (k - 2) 0 0 hidx')
    rw [e]
    exact count_all_bitstrings_eq_one _ _ hb0mem

/-! ### Branch-reduction lemmas for the gate compiler -/

theorem oi_cnot_path_only (N control target : Nat) :
    optical_implementation "CNOT" N control target "path_only"
      = .ok ((all_bitstrings N).filterMap fun bits =>
          if bits.getD (control - 1) 0 = 1 ∧ bits.getD (target - 1) 0 = 0 then
            some { element := "PathSwap", params := [],
                   location := .pair bits (bits.set (target - 1) 1) }
          else none) := rfl

theorem oi_rx_path_only (N k j : Nat) :
    optical_implementation "Rx" N k j "path_only"
      = .ok ((paired_paths_for_qubit (N + 1) (k + 1)).map fun pr =>
          { element := "BS", params := [], location := .pair pr.1 pr.2 }) := rfl

theorem oi_ry_path_only (N k j : Nat) :
    optical_implementation "Ry" N k j "path_only"
      = .ok ((paired_paths_for_qubit (N + 1) (k + 1)).flatMap fun pr =>
          [{ element := "PhasePlate", params := [("phi", "-pi/2")], location := .single pr.1 },
           { element := "BS", params := [("phi", "pi/2")], location := .pair pr.1 pr.2 },
           { element := "PhasePlate", params := [("phi", "pi/2")], location := .single pr.1 }]) := rfl

theorem oi_rx_pol_path (N k j : Nat) (hk : k ≠ 1) :
    optical_implementation "Rx" N k j "pol_path"
      = .ok ((paired_paths_for_qubit N k).map fun pr =>
          { element := "BS", params := [], location := .pair pr.1 pr.2 }) := by
  simp only [optical_implementation]
  rw [if_neg (by simp), if_pos (by simp), if_neg (by simp [hk]), if_neg (by simp),
    if_pos trivial]

theorem oi_ry_pol_path (N k j : Nat) (hk : k ≠ 1) :
    optical_implementation "Ry" N k j "pol_path"
      = .ok ((paired_paths_for_qubit N k).flatMap fun pr =>
          [{ element := "PhasePlate", params := [("phi", "-pi/2")], location := .single pr.1 },
           { element := "BS", params := [("phi", "pi/2")], location := .pair pr.1 pr.2 },
           { element := "PhasePlate", params := [("phi", "pi/2")], location := .single pr.1 }]) := by
  simp only [optical_implementation]
  rw [if_neg (by simp), if_pos (by simp), if_neg (by simp [hk]), if_neg (by simp),
    if_neg (by simp)]

theorem oi_cnot_pol_to_path (N control target : Nat) (hc : control = 1) (ht : target ≠ 1) :
    optical_implementation "CNOT" N control target "pol_path"
      = .ok ((paired_paths_for_qubit N target).map fun pr =>
          { element := "PBS", params := [], location := .pair pr.1 pr.2 }) := by
  subst hc
  simp only [optical_implementation]
  rw [if_neg (by simp), if_neg (by simp), if_pos trivial, if_pos trivial,
    if_pos ⟨trivial, ht⟩]

theorem oi_cnot_pol_11 (N : Nat) :
    optical_implementation "CNOT" N 1 1 "pol_path"
      = .error "Unsupported CNOT configuration" := rfl

theorem oi_unknown_gate (gate : String) (N i j : Nat)
    (hg1 : gate ≠ "Rx") (hg2 : gate ≠ "Ry") (hg3 : gate ≠ "CNOT")
    (encoding : String) (he : encoding = "pol_path" ∨ encoding = "path_only") :
    optical_implementation gate N i j encoding = .error "Unknown gate" := by
  simp only [optical_implementation]
  rw [if_neg (by rcases he with rfl | rfl <;> simp), if_neg (by simp [hg1, hg2]),
    if_neg hg3]

theorem oi_bad_encoding (gate : String) (N i j : Nat) (encoding : String)
    (he1 : encoding ≠ "pol_path") (he2 : encoding ≠ "path_only") :
    optical_implementation gate N i j encoding
      = .error "encoding must be 'pol_path' or 'path_only'" := by
  simp only [optical_implementation]
  rw [if_pos ⟨he1, he2⟩]

/-! ### Claim theorems -/

/-- C8: for every `n ≥ 0`, `all_bitstrings n` returns exactly `2^n`
pairwise-distinct tuples, each of length `n`.  Determinism of the order
across repeated calls with the same `n` is definitional here, since
`all_bitstrings` is a pure function of `n`. -/
theorem C8_all_bitstrings_spec (n : Nat) :
    (all_bitstrings n).length = 2 ^ n ∧
    (all_bitstrings n).Nodup ∧
    ∀ bits ∈ all_bitstrings n, bits.length = n :=
  ⟨length_all_bitstrings n, nodup_all_bitstrings n,
   fun bits hb => ((mem_all_bitstrings n bits).1 hb).1⟩

/-- C1: for `N ≥ 2` and `k ∈ [2, N]`, `paired_paths_for_qubit N k` returns
exactly `2^(N-2)` pairs of length-`N-1` bitstrings forming a perfect
matching: each pair has a 0 at index `k-2` in its first member, a 1 there
in its second, its members agree everywhere else, and every length-`N-1`
bitstring appears in exactly one pair (those with a 0 at the index as a
first member, those with a 1 as a second member). -/
theorem C1_paired_paths_perfect_matching (N k : Nat)
    (hN : 2 ≤ N) (hk2 : 2 ≤ k) (hkN : k ≤ N) :
    (paired_paths_for_qubit N k).length = 2 ^ (N - 2) ∧
    (∀ pr ∈ paired_paths_for_qubit N k,
      pr.1.length = N - 1 ∧ pr.2.length = N - 1 ∧
      pr.1.getD (k - 2) 0 = 0 ∧ pr.2.getD (k - 2) 0 = 1 ∧
      pr.2 = pr.1.set (k - 2) 1 ∧
      ∀ m, m ≠ k - 2 → pr.1.getD m 0 = pr.2.getD m 0) ∧
    ∀ bits ∈ all_bitstrings (N - 1),
      (paired_paths_for_qubit N k).countP
        (fun pr => decide (pr.1 = bits ∨ pr.2 = bits)) = 1 :=
  ⟨paired_length N k hN hk2 hkN,
   fun pr h => paired_mem_props N k hN hk2 hkN pr h,
   fun bits hb => paired_count_exactly_one N k hN hk2 hkN bits hb⟩

/-- C1 witness at `N = 3`, `k = 2`: two pairs, and the bitstrings `[0,1]`
and `[1,1]` each lie in exactly one pair. -/
theorem C1_paired_paths_perfect_matching_witness :
    (paired_paths_for_qubit 3 2).length = 2 ^ (3 - 2) ∧
    (paired_paths_for_qubit 3 2).countP
      (fun pr => decide (pr.1 = [0, 1] ∨ pr.2 = [0, 1])) = 1 ∧
    (paired_paths_for_qubit 3 2).countP
      (fun pr => decide (pr.1 = [1, 1] ∨ pr.2 = [1, 1])) = 1 :=
  ⟨(C1_paired_paths_perfect_matching 3 2 (by decide) (by decide) (by decide)).1,
   (C1_paired_paths_perfect_matching 3 2 (by decide) (by decide) (by decide)).2.2
     [0, 1] (by decide),
   (C1_paired_paths_perfect_matching 3 2 (by decide) (by decide) (by decide)).2.2
     [1, 1] (by decide)⟩

/-- C2: for circuits with `a.N = b.N`, `a.mul b` succeeds and yields the
circuit with `a`'s configuration, `a`'s elements unchanged followed by
`b`'s elements re-stamped by adding `a.stage`, and stage counter
`a.stage + b.stage`; its element count is the sum of the two counts. -/
theorem C2_mul_spec (a b : OpticalCircuit) (h : a.N = b.N) :
    (a.mul b = .ok
      { N := a.N, encoding := a.encoding,
        elements := a.elements ++ b.elements.map (fun e =>
          { element := e.element, params := e.params, location := e.location,
            stage := e.stage + a.stage }),
        stage := a.stage + b.stage }) ∧
    ∀ c, a.mul b = .ok c →
      c.stage = a.stage + b.stage ∧
      c.elements.length = a.elements.length + b.elements.length := by
  have hne : ¬a.N ≠ b.N := by simpa using h
  constructor
  · unfold OpticalCircuit.mul
    rw [if_neg hne]
  · intro c hc
    unfold OpticalCircuit.mul at hc
    rw [if_neg hne] at hc
    cases hc
    exact ⟨rfl, by simp⟩

/-- C2 witness: composing two concrete one-element circuits of equal `N`
(and different encodings) concatenates the elements, shifts the second
element's stage by the first circuit's stage counter, sums the stage
counters, and keeps the first circuit's configuration. -/
theorem C2_mul_spec_witness :
    (OpticalCircuit.mk 2 "pol_path"
        [OpticalElement.mk "BS" [] (.pair [0] [1]) 0] 1).mul
      (OpticalCircuit.mk 2 "path_only"
        [OpticalElement.mk "PathSwap" [] (.pair [1] [1]) 2] 3)
      = .ok (OpticalCircuit.mk 2 "pol_path"
          [OpticalElement.mk "BS" [] (.pair [0] [1]) 0,
           OpticalElement.mk "PathSwap" [] (.pair [1] [1]) 3] 4) :=
  (C2_mul_spec
    (OpticalCircuit.mk 2 "pol_path" [OpticalElement.mk "BS" [] (.pair [0] [1]) 0] 1)
    (OpticalCircuit.mk 2 "path_only"
      [OpticalElement.mk "PathSwap" [] (.pair [1] [1]) 2] 3) rfl).1

/-- C3: every successful `add_gate` call increments the stage counter by
exactly 1, leaves the configuration and the pre-existing elements
untouched, and stamps every newly appended element with the stage counter
as it was before the call. -/
theorem C3_add_gate_stage (c c' : OpticalCircuit) (gate : String) (i j : Nat)
    (h : c.add_gate gate i j = (c', none)) :
    c'.stage = c.stage + 1 ∧
    c'.N = c.N ∧ c'.encoding = c.encoding ∧
    c'.elements.take c.elements.length = c.elements ∧
    ∀ e ∈ c'.elements.drop c.elements.length, e.stage = c.stage := by
  unfold OpticalCircuit.add_gate at h
  cases hoi : optical_implementation gate c.N i j c.encoding with
  | error msg =>
      rw [hoi] at h
      simp at h
  | ok elems =>
      rw [hoi] at h
      have h1 : ({ c with
          elements := c.elements ++ elems.map (fun e => { e with stage := c.stage }),
          stage := c.stage + 1 } : OpticalCircuit) = c' := congrArg Prod.fst h
      subst h1
      refine ⟨rfl, rfl, rfl, List.take_left _ _, ?_⟩
      intro e he
      rw [List.drop_left] at he
      rcases List.mem_map.1 he with ⟨e0, -, rfl⟩
      rfl

/-- C3 witness: adding a `CNOT` with equal operands to an empty
`path_only` circuit compiles to zero elements yet advances the stage
counter from 0 to 1. -/
theorem C3_add_gate_stage_witness :
    (OpticalCircuit.mk 1 "path_only" [] 1).stage
        = (OpticalCircuit.mk 1 "path_only" [] 0).stage + 1 ∧
    (OpticalCircuit.mk 1 "path_only" [] 1).elements.take 0 = [] :=
  ⟨(C3_add_gate_stage (OpticalCircuit.mk 1 "path_only" [] 0)
      (OpticalCircuit.mk 1 "path_only" [] 1) "CNOT" 1 1 rfl).1,
   (C3_add_gate_stage (OpticalCircuit.mk 1 "path_only" [] 0)
      (OpticalCircuit.mk 1 "path_only" [] 1) "CNOT" 1 1 rfl).2.2.2.1⟩

/-- C4 counterexample: compiling `Rx` with `N = 3`, `i = 2` under
`pol_path` returns two beam-splitter elements across length-2 path pairs
(path labels have length `N - 1 = 2`), not one element across
`([0], [1])` as the claim states. -/
theorem C4_counterexample :
    optical_implementation "Rx" 3 2 0 "pol_path"
      = .ok [{ element := "BS", params := [], location := .pair [0, 0] [1, 0] },
             { element := "BS", params := [], location := .pair [0, 1] [1, 1] }] ∧
    (optical_implementation "Rx" 3 2 0 "pol_path").map List.length = .ok 2 ∧
    (2 : Nat) ≠ 1 :=
  ⟨rfl, rfl, by decide⟩

/-- C4 amended: compiling `Rx` with `N = 3`, `i = 2` under `pol_path`
returns exactly two beam-splitter (`BS`) elements, across the pairs
`([0,0], [1,0])` and `([0,1], [1,1])` of length-2 path labels. -/
theorem C4_rx_pol_path_n3 :
    optical_implementation "Rx" 3 2 0 "pol_path"
      = .ok [{ element := "BS", params := [], location := .pair [0, 0] [1, 0] },
             { element := "BS", params := [], location := .pair [0, 1] [1, 1] }] := rfl

/-- C5: for `N ≥ 2` and `target ∈ [2, N]`, a `pol_path` CNOT with control 1
and path target compiles to exactly one polarizing beam splitter (`PBS`)
per pair of `paired_paths_for_qubit N target`, located at that pair; the
number of elements is `2^(N-2)`. -/
theorem C5_cnot_pol_control (N target : Nat)
    (hN : 2 ≤ N) (ht2 : 2 ≤ target) (htN : target ≤ N) :
    optical_implementation "CNOT" N 1 target "pol_path"
      = .ok ((paired_paths_for_qubit N target).map fun pr =>
          { element := "PBS", params := [], location := .pair pr.1 pr.2 }) ∧
    ((paired_paths_for_qubit N target).map fun pr =>
        ({ element := "PBS", params := [], location := .pair pr.1 pr.2 }
          : OpticalElement)).length = 2 ^ (N - 2) := by
  refine ⟨oi_cnot_pol_to_path N 1 target rfl (by omega), ?_⟩
  rw [List.length_map]
  exact paired_length N target hN ht2 htN

/-- C5 witness: `CNOT` with `N = 4`, `i = 1`, `j = 3` under `pol_path`
yields exactly the four `PBS` elements of the matching. -/
theorem C5_cnot_pol_control_witness :
    optical_implementation "CNOT" 4 1 3 "pol_path"
      = .ok [{ element := "PBS", params := [], location := .pair [0, 0, 0] [0, 1, 0] },
             { element := "PBS", params := [], location := .pair [0, 0, 1] [0, 1, 1] },
             { element := "PBS", params := [], location := .pair [1, 0, 0] [1, 1, 0] },
             { element := "PBS", params := [], location := .pair [1, 0, 1] [1, 1, 1] }] ∧
    (paired_paths_for_qubit 4 3).length = 2 ^ (4 - 2) ∧
    (2 : Nat) ^ (4 - 2) = 4 :=
  ⟨(C5_cnot_pol_control 4 3 (by decide) (by decide) (by decide)).1,
   (C5_cnot_pol_control 4 3 (by decide) (by decide) (by decide)).2,
   by decide⟩

/-- C6: `Ry` on a path-encoded qubit (`pol_path` with `k ≠ 1`, or
`path_only` with any `k`) emits, for each matched pair `(p0, p1)`, exactly
the consecutive 3-element sequence: `PhasePlate` with `phi = -pi/2` at
`p0`, `BS` with `phi = pi/2` across `(p0, p1)`, `PhasePlate` with
`phi = pi/2` at `p0`, in that order. -/
theorem C6_ry_path_encoded (N k j : Nat) :
    (k ≠ 1 →
      optical_implementation "Ry" N k j "pol_path"
        = .ok ((paired_paths_for_qubit N k).flatMap fun pr =>
            [{ element := "PhasePlate", params := [("phi", "-pi/2")],
               location := .single pr.1 },
             { element := "BS", params := [("phi", "pi/2")],
               location := .pair pr.1 pr.2 },
             { element := "PhasePlate", params := [("phi", "pi/2")],
               location := .single pr.1 }])) ∧
    optical_implementation "Ry" N k j "path_only"
      = .ok ((paired_paths_for_qubit (N + 1) (k + 1)).flatMap fun pr =>
          [{ element := "PhasePlate", params := [("phi", "-pi/2")],
             location := .single pr.1 },
           { element := "BS", params := [("phi", "pi/2")],
             location := .pair pr.1 pr.2 },
           { element := "PhasePlate", params := [("phi", "pi/2")],
             location := .single pr.1 }]) :=
  ⟨fun hk => oi_ry_pol_path N k j hk, oi_ry_path_only N k j⟩

/-- C6 witness: `Ry` at `N = 2`, `k = 2` under `pol_path` (one pair,
three elements in order) and at `N = 1`, `k = 1` under `path_only`. -/
theorem C6_ry_path_encoded_witness :
    optical_implementation "Ry" 2 2 0 "pol_path"
      = .ok [{ element := "PhasePlate", params := [("phi", "-pi/2")],
               location := .single [0] },
             { element := "BS", params := [("phi", "pi/2")],
               location := .pair [0] [1] },
             { element := "PhasePlate", params := [("phi", "pi/2")],
               location := .single [0] }] ∧
    optical_implementation "Ry" 1 1 0 "path_only"
      = .ok [{ element := "PhasePlate", params := [("phi", "-pi/2")],
               location := .single [0] },
             { element := "BS", params := [("phi", "pi/2")],
               location := .pair [0] [1] },
             { element := "PhasePlate", params := [("phi", "pi/2")],
               location := .single [0] }] :=
  ⟨(C6_ry_path_encoded 2 2 0).1 (by decide), (C6_ry_path_encoded 1 1 0).2⟩

/-- C7: failing calls raise the matching typed error and leave the circuit
unchanged: an out-of-set encoding yields the encoding error; with a valid
encoding, a gate name outside Rx/Ry/CNOT yields the unknown-gate error; a
`pol_path` CNOT with both operands 1 yields the unsupported-CNOT error;
and whenever `add_gate` reports an error, the returned circuit state
equals the input state. -/
theorem C7_error_handling (gate encoding : String) (N i j : Nat)
    (c : OpticalCircuit) :
    (encoding ≠ "pol_path" ∧ encoding ≠ "path_only" →
      optical_implementation gate N i j encoding
        = .error "encoding must be 'pol_path' or 'path_only'") ∧
    (gate ≠ "Rx" ∧ gate ≠ "Ry" ∧ gate ≠ "CNOT" →
      (encoding = "pol_path" ∨ encoding = "path_only") →
      optical_implementation gate N i j encoding = .error "Unknown gate") ∧
    (optical_implementation "CNOT" N 1 1 "pol_path"
      = .error "Unsupported CNOT configuration") ∧
    ∀ e, (c.add_gate gate i j).2 = some e → (c.add_gate gate i j).1 = c := by
  refine ⟨fun h => oi_bad_encoding gate N i j encoding h.1 h.2,
    fun hg he => oi_unknown_gate gate N i j hg.1 hg.2.1 hg.2.2 encoding he,
    oi_cnot_pol_11 N, ?_⟩
  intro e he
  unfold OpticalCircuit.add_gate at he ⊢
  cases hoi : optical_implementation gate c.N i j c.encoding with
  | error msg => rfl
  | ok elems =>
      rw [hoi] at he
      simp at he

/-- C7 witness: one concrete instance of each error, plus state
preservation for a failed `add_gate`. -/
theorem C7_error_handling_witness :
    optical_implementation "Rx" 1 1 0 "dual_rail"
      = .error "encoding must be 'pol_path' or 'path_only'" ∧
    optical_implementation "Hadamard" 1 1 0 "pol_path" = .error "Unknown gate" ∧
    optical_implementation "CNOT" 2 1 1 "pol_path"
      = .error "Unsupported CNOT configuration" ∧
    ((OpticalCircuit.mk 2 "pol_path" [] 0).add_gate "Hadamard" 1 0).1
      = OpticalCircuit.mk 2 "pol_path" [] 0 :=
  ⟨(C7_error_handling "Rx" "dual_rail" 1 1 0 (OpticalCircuit.mk 2 "pol_path" [] 0)).1
     ⟨by decide, by decide⟩,
   (C7_error_handling "Hadamard" "pol_path" 1 1 0
      (OpticalCircuit.mk 2 "pol_path" [] 0)).2.1
     ⟨by decide, by decide, by decide⟩ (Or.inl rfl),
   (C7_error_handling "CNOT" "pol_path" 2 1 1
      (OpticalCircuit.mk 2 "pol_path" [] 0)).2.2.1,
   (C7_error_handling "Hadamard" "pol_path" 2 1 0
      (OpticalCircuit.mk 2 "pol_path" [] 0)).2.2.2 "Unknown gate" rfl⟩

/-- C9: a `path_only` CNOT with equal operands `t ∈ [1, N]` raises no
error and compiles to the empty element list (no bitstring has a 1 and a
0 at the same index), and `add_gate` on such operands appends nothing
while still incrementing the stage counter by 1. -/
theorem C9_cnot_equal_operands (N t : Nat) (_h1 : 1 ≤ t) (_h2 : t ≤ N) :
    optical_implementation "CNOT" N t t "path_only" = .ok [] ∧
    ∀ c : OpticalCircuit, c.encoding = "path_only" → c.N = N →
      c.add_gate "CNOT" t t
        = ({ N := c.N, encoding := c.encoding, elements := c.elements,
             stage := c.stage + 1 }, none) := by
  have hmain : optical_implementation "CNOT" N t t "path_only" = .ok [] := by
    rw [oi_cnot_path_only]
    congr 1
    refine List.filterMap_eq_nil_iff.2 (fun bits hb => ?_)
    rw [if_neg]
    rintro ⟨ha, hb0⟩
    omega
  refine ⟨hmain, fun c hc hN => ?_⟩
  unfold OpticalCircuit.add_gate
  rw [hc, hN, hmain]
  simp

/-- C9 witness: `CNOT` with `i = j = 1` at `N = 2`, `path_only`. -/
theorem C9_cnot_equal_operands_witness :
    optical_implementation "CNOT" 2 1 1 "path_only" = .ok [] ∧
    (OpticalCircuit.mk 2 "path_only" [] 0).add_gate "CNOT" 1 1
      = (OpticalCircuit.mk 2 "path_only" [] 1, none) :=
  ⟨(C9_cnot_equal_operands 2 1 (by decide) (by decide)).1,
   (C9_cnot_equal_operands 2 1 (by decide) (by decide)).2
     (OpticalCircuit.mk 2 "path_only" [] 0) rfl rfl⟩

/-- C10: for `k ∈ [1, N]`, `Rx` under `path_only` compiles to exactly one
`BS` element per pair of `paired_paths_for_qubit (N+1) (k+1)` — `2^(N-1)`
elements in total — and each pair consists of length-`N` bitstrings that
differ exactly at index `k-1`. -/
theorem C10_rx_path_only (N k j : Nat) (h1 : 1 ≤ k) (h2 : k ≤ N) :
    optical_implementation "Rx" N k j "path_only"
      = .ok ((paired_paths_for_qubit (N + 1) (k + 1)).map fun pr =>
          { element := "BS", params := [], location := .pair pr.1 pr.2 }) ∧
    (paired_paths_for_qubit (N + 1) (k + 1)).length = 2 ^ (N - 1) ∧
    ∀ pr ∈ paired_paths_for_qubit (N + 1) (k + 1),
      pr.1.length = N ∧ pr.2.length = N ∧
      pr.1.getD (k - 1) 0 = 0 ∧ pr.2.getD (k - 1) 0 = 1 ∧
      pr.2 = pr.1.set (k - 1) 1 ∧
      ∀ m, m ≠ k - 1 → pr.1.getD m 0 = pr.2.getD m 0 :=
  ⟨oi_rx_path_only N k j,
   paired_length (N + 1) (k + 1) (by omega) (by omega) (by omega),
   fun pr hpr =>
     paired_mem_props (N + 1) (k + 1) (by omega) (by omega) (by omega) pr hpr⟩

/-- C10 witness: `Rx` at `N = 2`, `k = 1` under `path_only`: two `BS`
elements across the pairs of length-2 labels differing at index 0. -/
theorem C10_rx_path_only_witness :
    optical_implementation "Rx" 2 1 0 "path_only"
      = .ok [{ element := "BS", params := [], location := .pair [0, 0] [1, 0] },
             { element := "BS", params := [], location := .pair [0, 1] [1, 1] }] ∧
    (paired_paths_for_qubit 3 2).length = 2 ^ (2 - 1) :=
  ⟨(C10_rx_path_only 2 1 0 (by decide) (by decide)).1,
   (C10_rx_path_only 2 1 0 (by decide) (by decide)).2.1⟩

end SEEQST
